import Mathlib

set_option maxRecDepth 10000

/-!
Verification of the speaker-diarization service (`src/main.py`): the segment
merge & statistics synthesizer (`format_diarization_output`), the pipeline
driver (`process_diarization`), the job registry operations, and the
submission validation (`diarize_audio`).

Text is modelled as `List Char`; times and durations as rationals; Python
operations that can raise (`dict` subscription of a missing key, `os.unlink`
of a missing file, division by zero) return `Except String`.
-/

namespace Diarize

/-- Python strings are modelled as lists of characters. -/
abbrev Str := List Char

/-- ASCII whitespace, the characters `str.strip()` / `str.split()` treat as
separators (Python also strips further unicode whitespace; the service's
texts are ASCII). -/
def isWS (c : Char) : Bool :=
  c = ' ' || c = '\t' || c = '\n' || c = '\r' || c = '\x0b' || c = '\x0c'

/-- Remove leading whitespace. -/
def stripL (s : Str) : Str := s.dropWhile isWS

/-- Remove trailing whitespace. -/
def stripR : Str → Str
  | [] => []
  | c :: rest =>
    let r := stripR rest
    if r = [] && isWS c then [] else c :: r

/-- Python `str.strip()`. -/
def pyStrip (s : Str) : Str := stripR (stripL s)

/-- Worker for `pySplit`: walks the string keeping the current (reversed)
in-progress token. -/
def splitGo : Str → Str → List Str
  | [], acc => if acc = [] then [] else [acc.reverse]
  | c :: rest, acc =>
    if isWS c then
      if acc = [] then splitGo rest [] else acc.reverse :: splitGo rest []
    else
      splitGo rest (c :: acc)

/-- Python `str.split()` with no argument: whitespace-delimited tokens, no
empty tokens. -/
def pySplit (s : Str) : List Str := splitGo s []

/-- Join a list of texts with a single space between consecutive elements. -/
def joinSpace : List Str → Str
  | [] => []
  | [t] => t
  | t :: rest => t ++ ' ' :: joinSpace rest

/-- A raw segment as produced by `whisperx.assign_word_speakers`: the
`speaker` key may be absent (`none`). `stop` is the source's `end` field
(`end` is a Lean keyword). -/
structure Segment where
  speaker : Option String
  text : Str
  start : ℚ
  stop : ℚ
deriving DecidableEq

/-- A merged speaker turn, one element of the output `segments` list. -/
structure Turn where
  speaker : String
  text : Str
  start : ℚ
  stop : ℚ
  duration : ℚ
deriving DecidableEq

/-- Per-speaker running data while scanning (`speakers[s]` before the final
statistics loop): `total_duration`, `segment_count`, `words`. -/
structure SpeakerData where
  total_duration : ℚ
  segment_count : ℕ
  words : List Str
deriving DecidableEq

/-- The open turn of the scan: `current_speaker`, `current_text`,
`current_start`, `current_end` (all set together; `none` models
`current_speaker is None`). -/
structure OpenTurn where
  speaker : String
  text : Str
  start : ℚ
  stop : ℚ
deriving DecidableEq

/-- The loop state of `format_diarization_output`. -/
structure ScanState where
  segments : List Turn
  speakers : List (String × SpeakerData)
  current : Option OpenTurn
deriving DecidableEq

/-- `speaker in speakers` (Python dict key test). -/
def containsKey (m : List (String × SpeakerData)) (s : String) : Bool :=
  m.any fun p => p.1 = s

/-- `if speaker not in speakers: speakers[speaker] = {...}` — insertion-order
preserving initialization. -/
def initSpeaker (m : List (String × SpeakerData)) (s : String) :
    List (String × SpeakerData) :=
  if containsKey m s then m else m ++ [(s, ⟨0, 0, []⟩)]

/-- In-place update of the entry for key `s`. -/
def updateSpeaker (m : List (String × SpeakerData)) (s : String)
    (f : SpeakerData → SpeakerData) : List (String × SpeakerData) :=
  m.map fun p => if p.1 = s then (p.1, f p.2) else p

/-- Close the open turn `cur`: append the finished `Turn` to `segments` and
update `cur.speaker`'s running statistics (lines 222-232 / 242-252 of
`main.py`). The caller manages `current`. -/
def closeTurn (st : ScanState) (cur : OpenTurn) : ScanState :=
  { segments := st.segments ++
      [{ speaker := cur.speaker, text := pyStrip cur.text, start := cur.start,
         stop := cur.stop, duration := cur.stop - cur.start }],
    speakers := updateSpeaker st.speakers cur.speaker fun d =>
      { total_duration := d.total_duration + (cur.stop - cur.start),
        segment_count := d.segment_count + 1,
        words := d.words ++ pySplit cur.text },
    current := st.current }

/-- One iteration of the `for segment in result["segments"]` loop. -/
def processSegment (st : ScanState) (seg : Segment) : ScanState :=
  match seg.speaker with
  | none => st
  | some speaker =>
    let text := pyStrip seg.text
    let st1 : ScanState := { st with speakers := initSpeaker st.speakers speaker }
    match st1.current with
    | some cur =>
      if cur.speaker = speaker then
        let cur2 : OpenTurn :=
          { cur with text := cur.text ++ ' ' :: text, stop := seg.stop }
        { st1 with current := some cur2 }
      else
        let st2 := closeTurn st1 cur
        { st2 with current := some ⟨speaker, text, seg.start, seg.stop⟩ }
    | none =>
      { st1 with current := some ⟨speaker, text, seg.start, seg.stop⟩ }

/-- The whole segment loop from the empty state. -/
def scanSegments (segs : List Segment) : ScanState :=
  segs.foldl processSegment ⟨[], [], none⟩

/-- "Don't forget the last segment": close the trailing open turn, if any. -/
def finishScan (st : ScanState) : ScanState :=
  match st.current with
  | none => st
  | some cur => { closeTurn st cur with current := none }

/-- Render a rational to two decimal places, modelling Python's `f"{x:.2f}"`
on the service's timestamps (rounding mode differences from IEEE floats do
not matter to any claim). -/
def fmt2 (q : ℚ) : Str :=
  let n : ℤ := round (q * 100)
  let sign : Str := if n < 0 then ['-'] else []
  let m := n.natAbs
  sign ++ (toString (m / 100)).toList ++ '.' ::
    (if m % 100 < 10 then ['0'] else []) ++ (toString (m % 100)).toList

/-- One transcript line: `f"{speaker} {timestamp}: {text}\n\n"` with
`timestamp = f"[{start:.2f}s - {end:.2f}s]"`. -/
def renderTurn (t : Turn) : Str :=
  t.speaker.toList ++ ' ' :: '[' :: fmt2 t.start ++ 's' :: ' ' :: '-' :: ' ' ::
    fmt2 t.stop ++ 's' :: ']' :: ':' :: ' ' :: t.text ++ ['\n', '\n']

/-- `full_transcript` accumulation followed by the final `.strip()`. -/
def renderTranscript (ts : List Turn) : Str :=
  pyStrip ((ts.map renderTurn).foldr (· ++ ·) [])

/-- Python division: raises `ZeroDivisionError` on a zero divisor (for both
`int` and `float` operands), otherwise exact. -/
def pyDiv (a b : ℚ) : Except String ℚ :=
  if b = 0 then .error "ZeroDivisionError" else .ok (a / b)

/-- A finalized per-speaker statistics record: the running data plus the
fields added by the statistics loop. -/
structure SpeakerStats where
  total_duration : ℚ
  segment_count : ℕ
  words : List Str
  percentage : ℚ
  average_segment_duration : ℚ
  word_count : ℕ
deriving DecidableEq

/-- The statistics loop body for one speaker:
`percentage = (total_duration / audio_duration) * 100`,
`average_segment_duration = total_duration / segment_count`,
`word_count = len(words)`. -/
def finalizeSpeaker (d : SpeakerData) (audio_duration : ℚ) :
    Except String SpeakerStats := do
  let frac ← pyDiv d.total_duration audio_duration
  let avg ← pyDiv d.total_duration (d.segment_count : ℚ)
  .ok { total_duration := d.total_duration, segment_count := d.segment_count,
        words := d.words, percentage := frac * 100,
        average_segment_duration := avg, word_count := d.words.length }

/-- The statistics loop over all speakers, in dict (insertion) order. -/
def finalizeStats (m : List (String × SpeakerData)) (audio_duration : ℚ) :
    Except String (List (String × SpeakerStats)) :=
  match m with
  | [] => .ok []
  | (s, d) :: rest => do
    let st ← finalizeSpeaker d audio_duration
    let rest2 ← finalizeStats rest audio_duration
    .ok ((s, st) :: rest2)

/-- The value returned by `format_diarization_output` (the `job_id` and
`processing_time` fields are attached by the caller and not modelled). -/
structure DiarizationOutput where
  transcript : Str
  speakers : List (String × SpeakerStats)
  segments : List Turn
  audio_duration : ℚ
  total_speakers : ℕ
deriving DecidableEq

/-- `format_diarization_output(result, audio_duration)` (lines 188-271):
scan and merge the labeled segments, render the transcript, then run the
statistics loop, which can raise `ZeroDivisionError`. -/
def format_diarization_output (segs : List Segment) (audio_duration : ℚ) :
    Except String DiarizationOutput :=
  let st := finishScan (scanSegments segs)
  do
    let stats ← finalizeStats st.speakers audio_duration
    .ok { transcript := renderTranscript st.segments, speakers := stats,
          segments := st.segments, audio_duration := audio_duration,
          total_speakers := st.speakers.length }

/-- A raw segment that does carry a speaker label. -/
structure LabeledSeg where
  speaker : String
  text : Str
  start : ℚ
  stop : ℚ
deriving DecidableEq

/-- The labeled segments of the input, in order (`if "speaker" in segment`). -/
def labeledOf (segs : List Segment) : List LabeledSeg :=
  segs.filterMap fun s =>
    match s.speaker with
    | none => none
    | some sp => some ⟨sp, s.text, s.start, s.stop⟩

/-- Specification-side state: the run of consecutive same-speaker segments
currently open, keeping the list of the segments' texts. -/
structure SpecRun where
  speaker : String
  texts : List Str
  start : ℚ
  stop : ℚ
deriving DecidableEq

/-- Specification-side emission of a run as a `Turn`: the segment texts are
each stripped of surrounding whitespace, joined with a single space, the
result stripped again; start is the run's first segment's start, end its
last segment's end. -/
def specClose (r : SpecRun) : Turn :=
  { speaker := r.speaker, text := pyStrip (joinSpace (r.texts.map pyStrip)),
    start := r.start, stop := r.stop, duration := r.stop - r.start }

/-- Specification-side merge scan over the labeled segments (the spec's
"open turn" loop): same speaker extends the open run (end only), a different
speaker closes it and opens a new one; the trailing run is emitted. -/
def specScan (r : SpecRun) : List LabeledSeg → List Turn
  | [] => [specClose r]
  | s :: rest =>
    if s.speaker = r.speaker then
      specScan { r with texts := r.texts ++ [s.text], stop := s.stop } rest
    else
      specClose r :: specScan ⟨s.speaker, [s.text], s.start, s.stop⟩ rest

/-- Specification-side turns: group the labeled segments into maximal runs
of consecutive segments sharing a speaker and emit each run. -/
def specTurns : List LabeledSeg → List Turn
  | [] => []
  | s :: rest => specScan ⟨s.speaker, [s.text], s.start, s.stop⟩ rest

/-- `processSegment` on a labeled segment, as a function of the label. -/
def processLabeled (st : ScanState) (s : LabeledSeg) : ScanState :=
  processSegment st ⟨some s.speaker, s.text, s.start, s.stop⟩

instance {ε α : Type} [DecidableEq ε] [DecidableEq α] :
    DecidableEq (Except ε α) := fun x y =>
  match x, y with
  | .ok a, .ok b =>
    if h : a = b then isTrue (by rw [h]) else isFalse (by simp [h])
  | .error a, .error b =>
    if h : a = b then isTrue (by rw [h]) else isFalse (by simp [h])
  | .ok _, .error _ => isFalse (by simp)
  | .error _, .ok _ => isFalse (by simp)

/-! ## Job registry (`job_storage`) and its operations -/

/-- One record of `job_storage`. `created_at` is wall-clock and not
modelled. -/
structure JobRecord where
  status : String
  progress : ℚ
  result : Option DiarizationOutput
  error : Option String
deriving DecidableEq

/-- `job_storage`, an insertion-ordered dict from job id to record. -/
abbrev JobStore := List (String × JobRecord)

/-- `job_storage[job_id][field] = value`, the driver's write pattern:
Python dict subscription of a missing key raises `KeyError`. -/
def storeWrite (store : JobStore) (id : String) (f : JobRecord → JobRecord) :
    Except String JobStore :=
  if store.any fun kv => kv.1 = id then
    .ok (store.map fun kv => if kv.1 = id then (kv.1, f kv.2) else kv)
  else .error "KeyError"

/-- `DELETE /job/{job_id}` (lines 336-344): 404 when absent, otherwise the
record is removed. -/
def delete_job (store : JobStore) (id : String) : Except String JobStore :=
  if store.any fun kv => kv.1 = id then
    .ok (store.filter fun kv => kv.1 ≠ id)
  else .error "404: Job not found"

/-! ## Pipeline driver (`process_diarization`) -/

/-- One registry write performed by the driver for its job. -/
inductive RegistryWrite
  | setStatus (s : String)
  | setProgress (p : ℚ)
  | setResult (out : DiarizationOutput)
  | setError (e : String)
deriving DecidableEq

/-- Outcomes of the external stages the driver invokes (each is an opaque
capability that either returns or raises): audio conversion, the
`torchaudio.load` duration probe, transcription, alignment, diarization.
The labeled segments and audio duration that reach
`format_diarization_output` are data of the run. -/
structure PipelineEnv where
  convertOk : Bool
  loadOk : Bool
  transcribeOk : Bool
  alignOk : Bool
  diarizeOk : Bool
  resultSegments : List Segment
  audioDuration : ℚ
deriving DecidableEq

/-- `os.unlink`: raises `FileNotFoundError` when the path is absent. The
filesystem is the list of existing paths. -/
def pyUnlink (fs : List Str) (f : Str) : Except String (List Str) :=
  if f ∈ fs then .ok (fs.erase f) else .error "FileNotFoundError"

/-- `os.path.exists`. -/
def pyExists (fs : List Str) (f : Str) : Bool := f ∈ fs

/-- The `except` block's cleanup (lines 177-184): when the exception was
raised before `processed_audio` was assigned (`processed = none`), the name
lookup itself raises `NameError`, which the bare `except: pass` swallows
before any `unlink` runs — so nothing is deleted. Otherwise each deletion
is guarded by `os.path.exists`. -/
def cleanupOnError (fs : List Str) (processed : Option Str) (audioPath : Str) :
    List Str :=
  match processed with
  | none => fs
  | some p =>
    let fs1 := if pyExists fs p then fs.erase p else fs
    if p ≠ audioPath && pyExists fs1 audioPath then fs1.erase audioPath else fs1

/-- Final state of one driver run: the filesystem and the ordered registry
writes it performed for its job. -/
structure DriverRun where
  fs : List Str
  trace : List RegistryWrite
deriving DecidableEq

/-- The failure exit of `process_diarization` (lines 172-186): mark the job
failed, record the error, run the guarded cleanup. -/
def failExit (fs : List Str) (tr : List RegistryWrite) (msg : String)
    (processed : Option Str) (audioPath : Str) : DriverRun :=
  { fs := cleanupOnError fs processed audioPath,
    trace := tr ++ [.setStatus "failed", .setError msg] }

/-- `process_diarization(audio_path, job_id)` (lines 109-186), for a job
that is present in the registry throughout the run (the deleted-job case is
modelled by `storeWrite`). `processedPath` is the `_processed.wav` path the
converter writes. Stage failures take the failure exit; on the success path
the two `os.unlink` calls are unguarded and a `FileNotFoundError` from them
is itself caught by the same `except` block. -/
def process_diarization (env : PipelineEnv) (fs0 : List Str)
    (audioPath processedPath : Str) : DriverRun :=
  let tr0 : List RegistryWrite := [.setStatus "processing", .setProgress (1/10)]
  if !env.convertOk then
    failExit fs0 tr0 "Audio conversion failed" none audioPath
  else
    let fs1 := if processedPath ∈ fs0 then fs0 else fs0 ++ [processedPath]
    if !env.loadOk then failExit fs1 tr0 "load failed" (some processedPath) audioPath
    else
      let tr1 := tr0 ++ [.setProgress (2/10)]
      if !env.transcribeOk then
        failExit fs1 tr1 "transcription failed" (some processedPath) audioPath
      else
        let tr2 := tr1 ++ [.setProgress (4/10)]
        if !env.alignOk then
          failExit fs1 tr2 "alignment failed" (some processedPath) audioPath
        else
          let tr3 := tr2 ++ [.setProgress (6/10)]
          if !env.diarizeOk then
            failExit fs1 tr3 "diarization failed" (some processedPath) audioPath
          else
            let tr4 := tr3 ++ [.setProgress (8/10)]
            match format_diarization_output env.resultSegments env.audioDuration with
            | .error e => failExit fs1 tr4 e (some processedPath) audioPath
            | .ok out =>
              match pyUnlink fs1 processedPath with
              | .error e => failExit fs1 tr4 e (some processedPath) audioPath
              | .ok fs2 =>
                if processedPath ≠ audioPath then
                  match pyUnlink fs2 audioPath with
                  | .error e => failExit fs2 tr4 e (some processedPath) audioPath
                  | .ok fs3 =>
                    { fs := fs3,
                      trace := tr4 ++ [.setProgress 1, .setStatus "completed",
                                       .setResult out] }
                else
                  { fs := fs2,
                    trace := tr4 ++ [.setProgress 1, .setStatus "completed",
                                     .setResult out] }

/-- The progress values of a trace, in write order. -/
def progressWrites (tr : List RegistryWrite) : List ℚ :=
  tr.filterMap fun w =>
    match w with
    | .setProgress p => some p
    | _ => none

/-- The last status written in a trace. -/
def lastStatus (tr : List RegistryWrite) : Option String :=
  (tr.filterMap fun w =>
    match w with
    | .setStatus s => some s
    | _ => none).getLast?

/-- The full sequence of progress values written over a job's lifetime:
`0.0` at creation (`diarize_audio`), then the driver's writes. -/
def lifetimeProgress (env : PipelineEnv) (fs0 : List Str)
    (audioPath processedPath : Str) : List ℚ :=
  0 :: progressWrites (process_diarization env fs0 audioPath processedPath).trace

/-! ## Submission (`diarize_audio`, lines 273-317) -/

/-- Python `str.lower()` restricted to ASCII, as applied to filenames. -/
def pyLower (s : Str) : Str := s.map Char.toLower

/-- `list.endswith` / `str.endswith` on character lists. -/
def strEndsWith (s suf : Str) : Bool :=
  decide (s.reverse.take suf.length = suf.reverse)

/-- The submission validation:
`audio_file.filename.lower().endswith(('.mp3', '.wav', '.m4a', '.flac'))`. -/
def allowedFilename (filename : Str) : Bool :=
  strEndsWith (pyLower filename) ".mp3".toList ||
  strEndsWith (pyLower filename) ".wav".toList ||
  strEndsWith (pyLower filename) ".m4a".toList ||
  strEndsWith (pyLower filename) ".flac".toList

/-- Outcome of `POST /diarize`: the registry afterwards and either an HTTP
error or the `{job_id, status}` response. -/
structure SubmitOutcome where
  store : JobStore
  response : Except String (String × String)
deriving DecidableEq

/-- `diarize_audio` up to the background-task handoff: the extension check
runs first and rejects without touching the registry; otherwise a fresh job
record is created with status `queued`, progress `0.0`, and the upload's
`content` is saved without ever being inspected. -/
def diarize_audio (store : JobStore) (filename : Str) (content : List ℕ)
    (newId : String) : SubmitOutcome :=
  if !allowedFilename filename then
    { store := store,
      response := .error "400: Unsupported file format. Please upload MP3, WAV, M4A, or FLAC files." }
  else
    let _ := content
    { store := store ++ [(newId, ⟨"queued", 0, none, none⟩)],
      response := .ok (newId, "queued") }

/-! ## Lemmas about the text primitives -/

theorem stripL_head_not_ws : ∀ {s : Str} {c : Char} {t : Str},
    stripL s = c :: t → isWS c = false := by
  intro s
  induction s with
  | nil => intro c t h; simp [stripL] at h
  | cons a rest ih =>
    intro c t h
    cases hb : isWS a with
    | true =>
      rw [stripL, List.dropWhile_cons_of_pos hb] at h
      exact ih h
    | false =>
      rw [stripL, List.dropWhile_cons_of_neg (by simp [hb])] at h
      injection h with h1 h2
      subst h1
      exact hb

theorem stripR_shape (a : Char) (rest : Str) :
    stripR (a :: rest) = [] ∨ stripR (a :: rest) = a :: stripR rest := by
  rw [stripR]
  split
  · exact Or.inl rfl
  · exact Or.inr rfl

theorem stripR_stripR (s : Str) : stripR (stripR s) = stripR s := by
  induction s with
  | nil => rfl
  | cons a rest ih =>
    rw [stripR]
    split
    · rfl
    · next hcond =>
      rw [stripR, ih]
      rw [if_neg hcond]

theorem stripL_stripR_stripL (s : Str) :
    stripL (stripR (stripL s)) = stripR (stripL s) := by
  cases h : stripL s with
  | nil => rfl
  | cons c t =>
    have hc : isWS c = false := stripL_head_not_ws h
    rcases stripR_shape c t with h2 | h2
    · rw [h2]; rfl
    · rw [h2, stripL, List.dropWhile_cons_of_neg (by simp [hc])]

theorem pyStrip_pyStrip (s : Str) : pyStrip (pyStrip s) = pyStrip s := by
  unfold pyStrip
  rw [stripL_stripR_stripL, stripR_stripR]

theorem splitGo_stripL (s : Str) : splitGo (stripL s) [] = splitGo s [] := by
  induction s with
  | nil => rfl
  | cons a rest ih =>
    by_cases ha : isWS a
    · rw [stripL, List.dropWhile_cons_of_pos ha]
      rw [show List.dropWhile isWS rest = stripL rest from rfl, ih]
      simp [splitGo, ha]
    · rw [stripL, List.dropWhile_cons_of_neg ha]

theorem stripR_eq_nil_all_ws : ∀ {s : Str}, stripR s = [] → ∀ c ∈ s, isWS c = true := by
  intro s
  induction s with
  | nil => intro _ c hc; simp at hc
  | cons a rest ih =>
    intro h c hc
    rw [stripR] at h
    split at h
    · next hcond =>
      simp only [Bool.and_eq_true, decide_eq_true_eq] at hcond
      rcases List.mem_cons.1 hc with rfl | hmem
      · exact hcond.2
      · exact ih hcond.1 c hmem
    · simp at h

theorem splitGo_all_ws : ∀ (s : Str) (acc : Str), (∀ c ∈ s, isWS c = true) →
    splitGo s acc = if acc = [] then [] else [acc.reverse] := by
  intro s
  induction s with
  | nil => intro acc _; rfl
  | cons a rest ih =>
    intro acc h
    have ha : isWS a = true := h a (List.mem_cons_self ..)
    have hrest : ∀ c ∈ rest, isWS c = true := fun c hc => h c (List.mem_cons_of_mem _ hc)
    have hr : splitGo rest [] = [] := by simpa using ih [] hrest
    rw [splitGo, if_pos ha]
    by_cases hacc : acc = []
    · simp [hacc, hr]
    · simp [hacc, hr]

theorem splitGo_stripR : ∀ (s : Str) (acc : Str), splitGo (stripR s) acc = splitGo s acc := by
  intro s
  induction s with
  | nil => intro acc; rfl
  | cons a rest ih =>
    intro acc
    rw [stripR]
    split
    · next hcond =>
      simp only [Bool.and_eq_true, decide_eq_true_eq] at hcond
      have hrest : ∀ c ∈ rest, isWS c = true := stripR_eq_nil_all_ws hcond.1
      have hr : splitGo rest [] = [] := by simpa using splitGo_all_ws rest [] hrest
      have h1 : splitGo (a :: rest) acc =
          if acc = [] then [] else [List.reverse acc] := by
        rw [splitGo, if_pos hcond.2]
        by_cases hacc : acc = []
        · simp [hacc, hr]
        · simp [hacc, hr]
      rw [h1]
      rfl
    · by_cases ha : isWS a
      · rw [splitGo, if_pos ha, splitGo, if_pos ha]
        by_cases hacc : acc = []
        · simp [hacc, ih]
        · simp [hacc, ih]
      · rw [splitGo, if_neg ha, splitGo, if_neg ha, ih]

theorem pySplit_pyStrip (s : Str) : pySplit (pyStrip s) = pySplit s := by
  unfold pySplit pyStrip
  rw [show stripR (stripL s) = stripR (stripL s) from rfl, splitGo_stripR, splitGo_stripL]

theorem joinSpace_append_single : ∀ (xs : List Str) (y : Str), xs ≠ [] →
    joinSpace (xs ++ [y]) = joinSpace xs ++ ' ' :: y := by
  intro xs
  induction xs with
  | nil => intro y h; exact absurd rfl h
  | cons a rest ih =>
    intro y _
    cases rest with
    | nil => rfl
    | cons b rest2 =>
      show joinSpace (a :: b :: (rest2 ++ [y])) = joinSpace (a :: b :: rest2) ++ ' ' :: y
      rw [show joinSpace (a :: b :: (rest2 ++ [y]))
            = a ++ ' ' :: joinSpace (b :: (rest2 ++ [y])) from rfl]
      rw [show joinSpace (a :: b :: rest2) = a ++ ' ' :: joinSpace (b :: rest2) from rfl]
      rw [show (b :: (rest2 ++ [y])) = (b :: rest2) ++ [y] from rfl, ih y (by simp)]
      simp

/-! ## Equation lemmas for the scan -/

theorem processSegment_none {st : ScanState} {seg : Segment}
    (h : seg.speaker = none) : processSegment st seg = st := by
  unfold processSegment
  rw [h]

theorem processSegment_some_none_cur {st : ScanState} {seg : Segment} {sp : String}
    (hs : seg.speaker = some sp) (hc : st.current = none) :
    processSegment st seg =
      { st with speakers := initSpeaker st.speakers sp,
                current := some ⟨sp, pyStrip seg.text, seg.start, seg.stop⟩ } := by
  unfold processSegment
  rw [hs]
  simp only [hc]

theorem processSegment_some_eq {st : ScanState} {seg : Segment} {sp : String}
    {cur : OpenTurn} (hs : seg.speaker = some sp) (hc : st.current = some cur)
    (he : cur.speaker = sp) :
    processSegment st seg =
      { st with speakers := initSpeaker st.speakers sp,
                current := some ⟨cur.speaker, cur.text ++ ' ' :: pyStrip seg.text,
                                 cur.start, seg.stop⟩ } := by
  unfold processSegment
  rw [hs]
  simp only [hc]
  rw [if_pos he]

theorem processSegment_some_ne {st : ScanState} {seg : Segment} {sp : String}
    {cur : OpenTurn} (hs : seg.speaker = some sp) (hc : st.current = some cur)
    (hne : ¬cur.speaker = sp) :
    processSegment st seg =
      { segments := st.segments ++
          [⟨cur.speaker, pyStrip cur.text, cur.start, cur.stop, cur.stop - cur.start⟩],
        speakers := updateSpeaker (initSpeaker st.speakers sp) cur.speaker fun d =>
          ⟨d.total_duration + (cur.stop - cur.start), d.segment_count + 1,
           d.words ++ pySplit cur.text⟩,
        current := some ⟨sp, pyStrip seg.text, seg.start, seg.stop⟩ } := by
  unfold processSegment
  rw [hs]
  simp only [hc]
  rw [if_neg hne]
  rfl

theorem finishScan_none {st : ScanState} (h : st.current = none) :
    finishScan st = st := by
  unfold finishScan
  rw [h]

theorem finishScan_some {st : ScanState} {cur : OpenTurn}
    (h : st.current = some cur) :
    finishScan st =
      { segments := st.segments ++
          [⟨cur.speaker, pyStrip cur.text, cur.start, cur.stop, cur.stop - cur.start⟩],
        speakers := updateSpeaker st.speakers cur.speaker fun d =>
          ⟨d.total_duration + (cur.stop - cur.start), d.segment_count + 1,
           d.words ++ pySplit cur.text⟩,
        current := none } := by
  unfold finishScan
  rw [h]
  rfl

/-! ## Unlabeled segments are no-ops; the scan runs over `labeledOf` -/

theorem foldl_skip_unlabeled : ∀ (segs : List Segment) (st : ScanState),
    (segs.filter fun s => s.speaker.isSome).foldl processSegment st
      = segs.foldl processSegment st := by
  intro segs
  induction segs with
  | nil => intro st; rfl
  | cons s rest ih =>
    intro st
    cases h : s.speaker with
    | none =>
      rw [List.foldl_cons, processSegment_none h, List.filter_cons]
      simp only [h, Option.isSome_none]
      exact ih st
    | some sp =>
      rw [List.foldl_cons, List.filter_cons]
      simp only [h, Option.isSome_some, if_pos]
      rw [List.foldl_cons]
      exact ih _

theorem foldl_labeledOf : ∀ (segs : List Segment) (st : ScanState),
    segs.foldl processSegment st = (labeledOf segs).foldl processLabeled st := by
  intro segs
  induction segs with
  | nil => intro st; rfl
  | cons s rest ih =>
    intro st
    obtain ⟨spk, tx, a, b⟩ := s
    cases spk with
    | none =>
      rw [List.foldl_cons, processSegment_none rfl]
      rw [show labeledOf (⟨none, tx, a, b⟩ :: rest) = labeledOf rest from rfl]
      exact ih st
    | some sp =>
      rw [List.foldl_cons]
      rw [show labeledOf (⟨some sp, tx, a, b⟩ :: rest)
            = ⟨sp, tx, a, b⟩ :: labeledOf rest from rfl]
      rw [List.foldl_cons]
      exact ih _

/-! ## Helper lemmas for the speakers dict -/

theorem containsKey_iff {m : List (String × SpeakerData)} {s : String} :
    containsKey m s = true ↔ ∃ p ∈ m, p.1 = s := by
  unfold containsKey
  rw [List.any_eq_true]
  simp

theorem containsKey_initSpeaker_self (m : List (String × SpeakerData)) (s : String) :
    containsKey (initSpeaker m s) s = true := by
  unfold initSpeaker
  split
  · next h => exact h
  · exact containsKey_iff.2 ⟨(s, ⟨0, 0, []⟩), by simp, rfl⟩

theorem containsKey_initSpeaker_of {m : List (String × SpeakerData)} {x : String}
    (s : String) (h : containsKey m x = true) :
    containsKey (initSpeaker m s) x = true := by
  unfold initSpeaker
  split
  · exact h
  · obtain ⟨p, hp, he⟩ := containsKey_iff.1 h
    exact containsKey_iff.2 ⟨p, List.mem_append_left _ hp, he⟩

theorem mem_initSpeaker {m : List (String × SpeakerData)} {s : String}
    {p : String × SpeakerData} (hp : p ∈ initSpeaker m s) :
    p ∈ m ∨ (containsKey m s = false ∧ p = (s, ⟨0, 0, []⟩)) := by
  unfold initSpeaker at hp
  split at hp
  · exact Or.inl hp
  · next h =>
    rcases List.mem_append.1 hp with h1 | h1
    · exact Or.inl h1
    · exact Or.inr ⟨Bool.eq_false_iff.2 h, by simpa using h1⟩

theorem containsKey_updateSpeaker (m : List (String × SpeakerData)) (s : String)
    (f : SpeakerData → SpeakerData) (x : String) :
    containsKey (updateSpeaker m s f) x = containsKey m x := by
  induction m with
  | nil => rfl
  | cons q rest ih =>
    unfold updateSpeaker containsKey at ih ⊢
    by_cases h : q.1 = s <;> simp [h, ih]

theorem mem_updateSpeaker {m : List (String × SpeakerData)} {s : String}
    {f : SpeakerData → SpeakerData} {p : String × SpeakerData}
    (hp : p ∈ updateSpeaker m s f) :
    ∃ q ∈ m, (q.1 = s ∧ p = (q.1, f q.2)) ∨ (¬q.1 = s ∧ p = q) := by
  unfold updateSpeaker at hp
  obtain ⟨q, hq, he⟩ := List.mem_map.1 hp
  by_cases h : q.1 = s
  · exact ⟨q, hq, Or.inl ⟨h, by rw [← he, if_pos h]⟩⟩
  · exact ⟨q, hq, Or.inr ⟨h, by rw [← he, if_neg h]⟩⟩

theorem initSpeaker_ne_nil (m : List (String × SpeakerData)) (s : String) :
    initSpeaker m s ≠ [] := by
  unfold initSpeaker
  split
  · next h =>
    obtain ⟨p, hp, -⟩ := containsKey_iff.1 h
    exact List.ne_nil_of_mem hp
  · simp

theorem updateSpeaker_ne_nil {m : List (String × SpeakerData)} {s : String}
    {f : SpeakerData → SpeakerData} (h : m ≠ []) : updateSpeaker m s f ≠ [] := by
  unfold updateSpeaker
  simpa using h

/-! ## A labeled segment leaves the speakers dict nonempty -/

theorem processSegment_speakers_ne_nil_of_labeled {st : ScanState} {seg : Segment}
    {sp : String} (hs : seg.speaker = some sp) :
    (processSegment st seg).speakers ≠ [] := by
  cases hc : st.current with
  | none =>
    rw [processSegment_some_none_cur hs hc]
    exact initSpeaker_ne_nil _ _
  | some cur =>
    by_cases he : cur.speaker = sp
    · rw [processSegment_some_eq hs hc he]
      exact initSpeaker_ne_nil _ _
    · rw [processSegment_some_ne hs hc he]
      dsimp only
      exact updateSpeaker_ne_nil (initSpeaker_ne_nil _ _)

theorem processSegment_speakers_ne_nil {st : ScanState} {seg : Segment}
    (h : st.speakers ≠ []) : (processSegment st seg).speakers ≠ [] := by
  cases hs : seg.speaker with
  | none => rw [processSegment_none hs]; exact h
  | some sp => exact processSegment_speakers_ne_nil_of_labeled hs

theorem foldl_speakers_ne_nil : ∀ (l : List Segment) (st : ScanState),
    (∃ s ∈ l, s.speaker ≠ none) ∨ st.speakers ≠ [] →
    (l.foldl processSegment st).speakers ≠ [] := by
  intro l
  induction l with
  | nil =>
    intro st hor
    rcases hor with hex | hne
    · obtain ⟨x, hx, -⟩ := hex
      simp at hx
    · exact hne
  | cons s rest ih =>
    intro st hor
    rw [List.foldl_cons]
    rcases hor with hex | hne
    · obtain ⟨x, hx, hxs⟩ := hex
      rcases List.mem_cons.1 hx with rfl | hxr
      · cases hs : x.speaker with
        | none => exact absurd hs hxs
        | some sp =>
          exact ih _ (Or.inr (processSegment_speakers_ne_nil_of_labeled hs))
      · exact ih _ (Or.inl ⟨x, hxr, hxs⟩)
    · exact ih _ (Or.inr (processSegment_speakers_ne_nil hne))

theorem finishScan_speakers_ne_nil {st : ScanState} (h : st.speakers ≠ []) :
    (finishScan st).speakers ≠ [] := by
  cases hc : st.current with
  | none => rw [finishScan_none hc]; exact h
  | some cur =>
    rw [finishScan_some hc]
    dsimp only
    exact updateSpeaker_ne_nil h

/-! ## The statistics loop: zero duration and the success shape -/

theorem finalizeSpeaker_zero (d : SpeakerData) :
    finalizeSpeaker d 0 = .error "ZeroDivisionError" := by
  unfold finalizeSpeaker pyDiv
  rw [if_pos rfl]
  rfl

theorem finalizeStats_zero_of_ne_nil {m : List (String × SpeakerData)}
    (h : m ≠ []) : finalizeStats m 0 = .error "ZeroDivisionError" := by
  cases m with
  | nil => exact absurd rfl h
  | cons p rest =>
    obtain ⟨s, d⟩ := p
    unfold finalizeStats
    rw [finalizeSpeaker_zero]
    rfl

theorem finalizeStats_ok {dur : ℚ} (hdur : ¬dur = 0) :
    ∀ m : List (String × SpeakerData), (∀ p ∈ m, p.2.segment_count ≠ 0) →
    finalizeStats m dur = .ok (m.map fun p =>
      (p.1, ⟨p.2.total_duration, p.2.segment_count, p.2.words,
             p.2.total_duration / dur * 100,
             p.2.total_duration / (p.2.segment_count : ℚ),
             p.2.words.length⟩)) := by
  intro m
  induction m with
  | nil => intro _; rfl
  | cons p rest ih =>
    intro h
    obtain ⟨s, d⟩ := p
    have hd : ¬(d.segment_count : ℚ) = 0 := by
      have h0 := h (s, d) (List.mem_cons_self ..)
      simpa using h0
    unfold finalizeStats finalizeSpeaker pyDiv
    rw [if_neg hdur, if_neg hd, ih fun q hq => h q (List.mem_cons_of_mem _ hq)]
    rfl

/-! ## The emitted turns are exactly the merged runs of the spec -/

theorem specScan_cons_of_eq {r : SpecRun} {s : LabeledSeg} {rest : List LabeledSeg}
    (he : s.speaker = r.speaker) :
    specScan r (s :: rest)
      = specScan { r with texts := r.texts ++ [s.text], stop := s.stop } rest := by
  rw [specScan, if_pos he]

theorem specScan_cons_of_ne {r : SpecRun} {s : LabeledSeg} {rest : List LabeledSeg}
    (he : ¬s.speaker = r.speaker) :
    specScan r (s :: rest)
      = specClose r :: specScan ⟨s.speaker, [s.text], s.start, s.stop⟩ rest := by
  rw [specScan, if_neg he]

theorem specScan_correspond : ∀ (ls : List LabeledSeg) (st : ScanState)
    (cur : OpenTurn) (r : SpecRun), st.current = some cur →
    cur.speaker = r.speaker → cur.text = joinSpace (r.texts.map pyStrip) →
    cur.start = r.start → cur.stop = r.stop → r.texts ≠ [] →
    (finishScan (ls.foldl processLabeled st)).segments
      = st.segments ++ specScan r ls := by
  intro ls
  induction ls with
  | nil =>
    intro st cur r hc hsp htx hst hsto hne
    rw [List.foldl_nil, finishScan_some hc]
    rw [show specScan r [] = [specClose r] from rfl]
    rw [hsp, htx, hst, hsto]
    rfl
  | cons s rest ih =>
    intro st cur r hc hsp htx hst hsto hne
    rw [List.foldl_cons]
    by_cases he : s.speaker = r.speaker
    · have he2 : cur.speaker = s.speaker := by rw [hsp, he]
      rw [show processLabeled st s
            = processSegment st ⟨some s.speaker, s.text, s.start, s.stop⟩ from rfl]
      rw [processSegment_some_eq rfl hc he2]
      dsimp only
      have htx2 : cur.text ++ ' ' :: pyStrip s.text
          = joinSpace ((r.texts ++ [s.text]).map pyStrip) := by
        rw [List.map_append, List.map_singleton,
            joinSpace_append_single _ _ (by simpa using hne), htx]
      have hmain := ih
        { st with speakers := initSpeaker st.speakers s.speaker,
                  current := some ⟨cur.speaker, cur.text ++ ' ' :: pyStrip s.text,
                                   cur.start, s.stop⟩ }
        ⟨cur.speaker, cur.text ++ ' ' :: pyStrip s.text, cur.start, s.stop⟩
        { r with texts := r.texts ++ [s.text], stop := s.stop }
        rfl hsp htx2 hst rfl (by simp)
      rw [hmain, specScan_cons_of_eq he]
    · have he2 : ¬cur.speaker = s.speaker := by rw [hsp]; exact fun hh => he hh.symm
      rw [show processLabeled st s
            = processSegment st ⟨some s.speaker, s.text, s.start, s.stop⟩ from rfl]
      rw [processSegment_some_ne rfl hc he2]
      dsimp only
      have hmain := ih
        { segments := st.segments ++
            [⟨cur.speaker, pyStrip cur.text, cur.start, cur.stop,
              cur.stop - cur.start⟩],
          speakers := updateSpeaker (initSpeaker st.speakers s.speaker) cur.speaker
            fun d => ⟨d.total_duration + (cur.stop - cur.start),
                      d.segment_count + 1, d.words ++ pySplit cur.text⟩,
          current := some ⟨s.speaker, pyStrip s.text, s.start, s.stop⟩ }
        ⟨s.speaker, pyStrip s.text, s.start, s.stop⟩
        (⟨s.speaker, [s.text], s.start, s.stop⟩ : SpecRun)
        rfl rfl rfl rfl rfl (by simp)
      rw [hmain, specScan_cons_of_ne he]
      dsimp only
      rw [show (specClose r : Turn)
            = ⟨cur.speaker, pyStrip cur.text, cur.start, cur.stop,
               cur.stop - cur.start⟩
          from by rw [specClose, hsp, htx, hst, hsto]]
      simp

theorem turns_eq_specTurns (segs : List Segment) :
    (finishScan (scanSegments segs)).segments = specTurns (labeledOf segs) := by
  unfold scanSegments
  rw [foldl_labeledOf]
  cases hl : labeledOf segs with
  | nil => rfl
  | cons l ls =>
    rw [List.foldl_cons]
    rw [show processLabeled ⟨[], [], none⟩ l
          = processSegment ⟨[], [], none⟩ ⟨some l.speaker, l.text, l.start, l.stop⟩
        from rfl]
    rw [processSegment_some_none_cur rfl rfl]
    dsimp only
    have hmain := specScan_correspond ls
      { segments := [], speakers := initSpeaker [] l.speaker,
        current := some ⟨l.speaker, pyStrip l.text, l.start, l.stop⟩ }
      ⟨l.speaker, pyStrip l.text, l.start, l.stop⟩
      (⟨l.speaker, [l.text], l.start, l.stop⟩ : SpecRun)
      rfl rfl rfl rfl rfl (by simp)
    rw [hmain]
    rfl

/-! ## The running statistics aggregate the emitted turns -/

/-- The turns of `ts` owned by speaker `s`. -/
def ownedTurns (ts : List Turn) (s : String) : List Turn :=
  ts.filter fun t => t.speaker = s

theorem ownedTurns_append_of_eq {ts : List Turn} {T : Turn} {s : String}
    (h : T.speaker = s) : ownedTurns (ts ++ [T]) s = ownedTurns ts s ++ [T] := by
  simp [ownedTurns, h]

theorem ownedTurns_append_of_ne {ts : List Turn} {T : Turn} {s : String}
    (h : ¬T.speaker = s) : ownedTurns (ts ++ [T]) s = ownedTurns ts s := by
  simp [ownedTurns, h]

/-- Invariant maintained by the scan loop: per-speaker running data
aggregates exactly that speaker's emitted turns, every turn speaker and the
open turn's speaker are dict keys, and every speaker with no emitted turn
yet is the open turn's speaker. -/
structure ScanInv (st : ScanState) : Prop where
  turnKeys : ∀ t ∈ st.segments, containsKey st.speakers t.speaker = true
  curKey : ∀ cur, st.current = some cur → containsKey st.speakers cur.speaker = true
  aggDur : ∀ p ∈ st.speakers,
    p.2.total_duration = ((ownedTurns st.segments p.1).map Turn.duration).sum
  aggCnt : ∀ p ∈ st.speakers,
    p.2.segment_count = (ownedTurns st.segments p.1).length
  aggWords : ∀ p ∈ st.speakers,
    p.2.words = ((ownedTurns st.segments p.1).map fun t => pySplit t.text).flatten
  owns : ∀ p ∈ st.speakers, ownedTurns st.segments p.1 ≠ []
    ∨ ∃ cur, st.current = some cur ∧ cur.speaker = p.1

theorem ownedTurns_nil_of_fresh {st : ScanState} (inv : ScanInv st) {sp : String}
    (h : containsKey st.speakers sp = false) : ownedTurns st.segments sp = [] := by
  apply List.filter_eq_nil_iff.mpr
  intro t ht hdec
  have heq : t.speaker = sp := of_decide_eq_true hdec
  have hk := inv.turnKeys t ht
  rw [heq] at hk
  simp [h] at hk

theorem scanInv_init : ScanInv ⟨[], [], none⟩ := by
  refine ⟨?_, ?_, ?_, ?_, ?_, ?_⟩ <;> intro p hp <;> simp at hp

theorem scanInv_step {st : ScanState} (inv : ScanInv st) (seg : Segment) :
    ScanInv (processSegment st seg) := by
  cases hs : seg.speaker with
  | none => rw [processSegment_none hs]; exact inv
  | some sp =>
    cases hc : st.current with
    | none =>
      rw [processSegment_some_none_cur hs hc]
      refine ⟨?_, ?_, ?_, ?_, ?_, ?_⟩ <;> dsimp only
      · intro t ht
        exact containsKey_initSpeaker_of sp (inv.turnKeys t ht)
      · intro cur' hcur'
        injection hcur' with h1
        rw [← h1]
        exact containsKey_initSpeaker_self _ _
      · intro p hp
        rcases mem_initSpeaker hp with hm | ⟨hfresh, rfl⟩
        · exact inv.aggDur p hm
        · dsimp only
          rw [ownedTurns_nil_of_fresh inv hfresh]
          rfl
      · intro p hp
        rcases mem_initSpeaker hp with hm | ⟨hfresh, rfl⟩
        · exact inv.aggCnt p hm
        · dsimp only
          rw [ownedTurns_nil_of_fresh inv hfresh]
          rfl
      · intro p hp
        rcases mem_initSpeaker hp with hm | ⟨hfresh, rfl⟩
        · exact inv.aggWords p hm
        · dsimp only
          rw [ownedTurns_nil_of_fresh inv hfresh]
          rfl
      · intro p hp
        rcases mem_initSpeaker hp with hm | ⟨hfresh, rfl⟩
        · rcases inv.owns p hm with h1 | ⟨cur0, hcur0, -⟩
          · exact Or.inl h1
          · rw [hc] at hcur0
            cases hcur0
        · exact Or.inr ⟨⟨sp, pyStrip seg.text, seg.start, seg.stop⟩, rfl, rfl⟩
    | some cur =>
      by_cases he : cur.speaker = sp
      · have hkey : containsKey st.speakers sp = true := by
          have h0 := inv.curKey cur hc
          rwa [he] at h0
        have hinit : initSpeaker st.speakers sp = st.speakers := by
          unfold initSpeaker
          rw [if_pos hkey]
        rw [processSegment_some_eq hs hc he, hinit]
        refine ⟨?_, ?_, ?_, ?_, ?_, ?_⟩ <;> dsimp only
        · exact inv.turnKeys
        · intro cur' hcur'
          injection hcur' with h1
          rw [← h1]
          exact inv.curKey cur hc
        · exact inv.aggDur
        · exact inv.aggCnt
        · exact inv.aggWords
        · intro p hp
          rcases inv.owns p hp with h1 | ⟨cur0, hcur0, hsp0⟩
          · exact Or.inl h1
          · rw [hc] at hcur0
            injection hcur0 with h2
            subst h2
            exact Or.inr ⟨⟨cur.speaker, cur.text ++ ' ' :: pyStrip seg.text,
              cur.start, seg.stop⟩, rfl, hsp0⟩
      · have hkeyCur : containsKey st.speakers cur.speaker = true := inv.curKey cur hc
        rw [processSegment_some_ne hs hc he]
        refine ⟨?_, ?_, ?_, ?_, ?_, ?_⟩ <;> dsimp only
        · intro t ht
          rw [containsKey_updateSpeaker]
          rcases List.mem_append.1 ht with h1 | h1
          · exact containsKey_initSpeaker_of sp (inv.turnKeys t h1)
          · rw [List.mem_singleton.1 h1]
            exact containsKey_initSpeaker_of sp hkeyCur
        · intro cur' hcur'
          injection hcur' with h1
          rw [← h1, containsKey_updateSpeaker]
          exact containsKey_initSpeaker_self _ _
        · intro p hp
          obtain ⟨q, hq, hcase⟩ := mem_updateSpeaker hp
          rcases mem_initSpeaker hq with hqm | ⟨hfresh, rfl⟩
          · rcases hcase with ⟨hq1, rfl⟩ | ⟨hq1, rfl⟩
            · dsimp only
              rw [ownedTurns_append_of_eq hq1.symm, List.map_append, List.sum_append,
                  ← inv.aggDur q hqm]
              simp
            · rw [ownedTurns_append_of_ne fun hx => hq1 hx.symm]
              exact inv.aggDur p hqm
          · rcases hcase with ⟨hq1, rfl⟩ | ⟨hq1, rfl⟩
            · exact absurd hq1.symm he
            · dsimp only
              rw [ownedTurns_append_of_ne he,
                  ownedTurns_nil_of_fresh inv hfresh]
              rfl
        · intro p hp
          obtain ⟨q, hq, hcase⟩ := mem_updateSpeaker hp
          rcases mem_initSpeaker hq with hqm | ⟨hfresh, rfl⟩
          · rcases hcase with ⟨hq1, rfl⟩ | ⟨hq1, rfl⟩
            · dsimp only
              rw [ownedTurns_append_of_eq hq1.symm, List.length_append,
                  ← inv.aggCnt q hqm]
              simp
            · rw [ownedTurns_append_of_ne fun hx => hq1 hx.symm]
              exact inv.aggCnt p hqm
          · rcases hcase with ⟨hq1, rfl⟩ | ⟨hq1, rfl⟩
            · exact absurd hq1.symm he
            · dsimp only
              rw [ownedTurns_append_of_ne he,
                  ownedTurns_nil_of_fresh inv hfresh]
              rfl
        · intro p hp
          obtain ⟨q, hq, hcase⟩ := mem_updateSpeaker hp
          rcases mem_initSpeaker hq with hqm | ⟨hfresh, rfl⟩
          · rcases hcase with ⟨hq1, rfl⟩ | ⟨hq1, rfl⟩
            · dsimp only
              rw [ownedTurns_append_of_eq hq1.symm, List.map_append,
                  List.flatten_append, ← inv.aggWords q hqm]
              simp [pySplit_pyStrip]
            · rw [ownedTurns_append_of_ne fun hx => hq1 hx.symm]
              exact inv.aggWords p hqm
          · rcases hcase with ⟨hq1, rfl⟩ | ⟨hq1, rfl⟩
            · exact absurd hq1.symm he
            · dsimp only
              rw [ownedTurns_append_of_ne he,
                  ownedTurns_nil_of_fresh inv hfresh]
              rfl
        · intro p hp
          obtain ⟨q, hq, hcase⟩ := mem_updateSpeaker hp
          rcases mem_initSpeaker hq with hqm | ⟨hfresh, rfl⟩
          · rcases hcase with ⟨hq1, rfl⟩ | ⟨hq1, rfl⟩
            · dsimp only
              rw [ownedTurns_append_of_eq hq1.symm]
              exact Or.inl (by simp)
            · rcases inv.owns p hqm with h1 | ⟨cur0, hcur0, hsp0⟩
              · rw [ownedTurns_append_of_ne fun hx => hq1 hx.symm]
                exact Or.inl h1
              · rw [hc] at hcur0
                injection hcur0 with h2
                subst h2
                exact absurd hsp0.symm hq1
          · rcases hcase with ⟨hq1, rfl⟩ | ⟨hq1, rfl⟩
            · exact absurd hq1.symm he
            · exact Or.inr ⟨⟨sp, pyStrip seg.text, seg.start, seg.stop⟩, rfl, rfl⟩

theorem scanInv_foldl : ∀ (segs : List Segment) (st : ScanState),
    ScanInv st → ScanInv (segs.foldl processSegment st) := by
  intro segs
  induction segs with
  | nil => intro st inv; exact inv
  | cons s rest ih =>
    intro st inv
    rw [List.foldl_cons]
    exact ih _ (scanInv_step inv s)

theorem scanInv_scan (segs : List Segment) : ScanInv (scanSegments segs) :=
  scanInv_foldl segs _ scanInv_init

/-- After the trailing close, every speaker entry aggregates exactly its
owned turns and owns at least one turn. -/
theorem finalAgg (segs : List Segment) :
    ∀ p ∈ (finishScan (scanSegments segs)).speakers,
      p.2.total_duration
        = ((ownedTurns (finishScan (scanSegments segs)).segments p.1).map
            Turn.duration).sum
      ∧ p.2.segment_count
        = (ownedTurns (finishScan (scanSegments segs)).segments p.1).length
      ∧ p.2.words
        = ((ownedTurns (finishScan (scanSegments segs)).segments p.1).map
            fun t => pySplit t.text).flatten
      ∧ ownedTurns (finishScan (scanSegments segs)).segments p.1 ≠ [] := by
  have inv := scanInv_scan segs
  cases hc : (scanSegments segs).current with
  | none =>
    rw [finishScan_none hc]
    intro p hp
    refine ⟨inv.aggDur p hp, inv.aggCnt p hp, inv.aggWords p hp, ?_⟩
    rcases inv.owns p hp with h1 | ⟨cur0, hcur0, -⟩
    · exact h1
    · rw [hc] at hcur0
      cases hcur0
  | some cur =>
    rw [finishScan_some hc]
    intro p hp
    dsimp only at hp ⊢
    obtain ⟨q, hq, hcase⟩ := mem_updateSpeaker hp
    rcases hcase with ⟨hq1, rfl⟩ | ⟨hq1, rfl⟩
    · refine ⟨?_, ?_, ?_, ?_⟩
      · dsimp only
        rw [ownedTurns_append_of_eq hq1.symm, List.map_append, List.sum_append,
            ← inv.aggDur q hq]
        simp
      · dsimp only
        rw [ownedTurns_append_of_eq hq1.symm, List.length_append,
            ← inv.aggCnt q hq]
        simp
      · dsimp only
        rw [ownedTurns_append_of_eq hq1.symm, List.map_append,
            List.flatten_append, ← inv.aggWords q hq]
        simp [pySplit_pyStrip]
      · rw [ownedTurns_append_of_eq hq1.symm]
        simp
    · rw [ownedTurns_append_of_ne fun hx => hq1 hx.symm]
      refine ⟨inv.aggDur p hq, inv.aggCnt p hq, inv.aggWords p hq, ?_⟩
      rcases inv.owns p hq with h1 | ⟨cur0, hcur0, hsp0⟩
      · exact h1
      · rw [hc] at hcur0
        injection hcur0 with h2
        subst h2
        exact absurd hsp0.symm hq1

/-! ## Further helpers for the claims -/

theorem foldl_all_none : ∀ (l : List Segment) (st : ScanState),
    (∀ s ∈ l, s.speaker = none) → l.foldl processSegment st = st := by
  intro l
  induction l with
  | nil => intro st _; rfl
  | cons s rest ih =>
    intro st h
    rw [List.foldl_cons, processSegment_none (h s (List.mem_cons_self ..))]
    exact ih st fun x hx => h x (List.mem_cons_of_mem _ hx)

theorem labeledOf_map_toSegment : ∀ ls : List LabeledSeg,
    labeledOf (ls.map fun l => ⟨some l.speaker, l.text, l.start, l.stop⟩) = ls := by
  intro ls
  induction ls with
  | nil => rfl
  | cons l rest ih =>
    rw [List.map_cons]
    rw [show labeledOf ((⟨some l.speaker, l.text, l.start, l.stop⟩ : Segment)
          :: (rest.map fun x => ⟨some x.speaker, x.text, x.start, x.stop⟩))
        = ⟨l.speaker, l.text, l.start, l.stop⟩
          :: labeledOf (rest.map fun x => ⟨some x.speaker, x.text, x.start, x.stop⟩)
        from rfl]
    rw [ih]

theorem specClose_singleton (x : LabeledSeg) :
    specClose ⟨x.speaker, [x.text], x.start, x.stop⟩
      = ⟨x.speaker, pyStrip x.text, x.start, x.stop, x.stop - x.start⟩ := by
  unfold specClose
  dsimp only
  rw [show joinSpace ([x.text].map pyStrip) = pyStrip x.text from rfl,
      pyStrip_pyStrip]

theorem specScan_pairwise_ne : ∀ (ls : List LabeledSeg) (r : SpecRun),
    (∀ l0, ls.head? = some l0 → ¬l0.speaker = r.speaker) →
    List.Chain' (fun a b => ¬a.speaker = b.speaker) ls →
    specScan r ls = specClose r :: ls.map fun l =>
      specClose ⟨l.speaker, [l.text], l.start, l.stop⟩ := by
  intro ls
  induction ls with
  | nil => intro r _ _; rfl
  | cons s rest ih =>
    intro r hhead hch
    have hne : ¬s.speaker = r.speaker := hhead s rfl
    rw [specScan_cons_of_ne hne, List.map_cons]
    congr 1
    apply ih
    · intro l0 hl0
      cases rest with
      | nil => cases hl0
      | cons r0 rr =>
        injection hl0 with h1
        subst h1
        have h2 := List.chain'_cons.1 hch
        exact fun hx => h2.1 hx.symm
    · exact hch.tail

/-! ## Claim theorems -/

/-- C2: the spec requires that after a job is deleted, every subsequent
status/progress/result write the pipeline driver performs for that job id
is silently dropped. The code instead subscripts `job_storage[job_id]`,
which raises `KeyError` once the record is gone: deleting a running job and
then performing the driver's next writes raises instead of no-oping (and
the identical subscript inside the `except` handler re-raises, so the
failure escapes the driver). -/
theorem write_after_delete_raises_keyerror :
    delete_job [("job-1", ⟨"processing", 1/10, none, none⟩)] "job-1"
      = .ok ([] : JobStore)
    ∧ storeWrite ([] : JobStore) "job-1"
        (fun r => { r with status := "completed" }) = .error "KeyError"
    ∧ storeWrite ([] : JobStore) "job-1"
        (fun r => { r with progress := 1 }) = .error "KeyError"
    ∧ storeWrite ([] : JobStore) "job-1"
        (fun r => { r with status := "failed" }) = .error "KeyError" := by
  refine ⟨?_, rfl, rfl, rfl⟩
  with_unfolding_all decide

/-- C3: the spec requires every temporary file to be deleted on every exit
path. When audio conversion itself fails, `processed_audio` was never
assigned, the cleanup block's `os.path.exists(processed_audio)` raises
`NameError`, the bare `except: pass` swallows it before any `unlink`, and
the saved upload is left on disk: the final filesystem still contains the
upload after the failed run. -/
theorem convert_failure_leaks_upload :
    (process_diarization ⟨false, true, true, true, true, [], 10⟩
        ["upload.wav".toList] "upload.wav".toList
        "upload_processed.wav".toList).fs
      = ["upload.wav".toList]
    ∧ lastStatus (process_diarization ⟨false, true, true, true, true, [], 10⟩
        ["upload.wav".toList] "upload.wav".toList
        "upload_processed.wav".toList).trace = some "failed" := by
  constructor <;> with_unfolding_all decide

/-- C4: with `audio_duration = 0` and at least one speaker-labeled segment,
statistics finalization fails (Python raises `ZeroDivisionError` at the
percentage division) and no output — in particular no non-finite
percentage — is produced. -/
theorem zero_duration_stats_error (segs : List Segment)
    (h : ∃ s ∈ segs, s.speaker ≠ none) :
    format_diarization_output segs 0 = .error "ZeroDivisionError" := by
  have h1 : (finishScan (scanSegments segs)).speakers ≠ [] := by
    apply finishScan_speakers_ne_nil
    unfold scanSegments
    exact foldl_speakers_ne_nil segs _ (Or.inl h)
  unfold format_diarization_output
  dsimp only
  rw [finalizeStats_zero_of_ne_nil h1]
  rfl

/-- Witness for C4 at a concrete one-segment input. -/
theorem zero_duration_stats_error_witness :
    (∃ s ∈ [(⟨some "A", "hi".toList, 0, 1⟩ : Segment)], s.speaker ≠ none)
    ∧ format_diarization_output [⟨some "A", "hi".toList, 0, 1⟩] 0
        = .error "ZeroDivisionError" :=
  ⟨by decide, zero_duration_stats_error [⟨some "A", "hi".toList, 0, 1⟩] (by decide)⟩

/-- C6 counterexample: an empty upload (`content = []`) with a recognized
extension is NOT rejected before job creation — `diarize_audio` never
inspects the content and creates a `queued` job record for it, refuting the
claim that empty/corrupt uploads are rejected synchronously with no job
record produced. -/
theorem empty_upload_creates_job_counterexample :
    (diarize_audio [] "audio.wav".toList [] "job-1").store
      = [("job-1", ⟨"queued", 0, none, none⟩)]
    ∧ (diarize_audio [] "audio.wav".toList [] "job-1").response
        = .ok ("job-1", "queued") := by
  constructor <;> with_unfolding_all decide

/-- C6 (amended): only the filename extension is validated at submission.
A filename whose lower-cased form does not end in `.mp3`/`.wav`/`.m4a`/
`.flac` is rejected synchronously and no job record is produced; any upload
content with an accepted extension creates a `queued` job record without
the content being inspected (empty or corrupt uploads fail later, inside
the pipeline). -/
theorem submission_validates_extension_only (store : JobStore) (filename : Str)
    (content : List ℕ) (newId : String) :
    (allowedFilename filename = false →
      diarize_audio store filename content newId
        = ⟨store, .error "400: Unsupported file format. Please upload MP3, WAV, M4A, or FLAC files."⟩)
    ∧ (allowedFilename filename = true →
      diarize_audio store filename content newId
        = ⟨store ++ [(newId, ⟨"queued", 0, none, none⟩)], .ok (newId, "queued")⟩) := by
  constructor <;> intro h <;> simp [diarize_audio, h]

/-- Witness for C6: a `.txt` filename is rejected with no job record; a
(case-insensitive) `.wav` filename with empty content is accepted. -/
theorem submission_validates_extension_only_witness :
    (allowedFilename "notes.txt".toList = false
      ∧ diarize_audio [] "notes.txt".toList [] "j"
          = ⟨[], .error "400: Unsupported file format. Please upload MP3, WAV, M4A, or FLAC files."⟩)
    ∧ (allowedFilename "AUDIO.WAV".toList = true
      ∧ diarize_audio [] "AUDIO.WAV".toList [] "j"
          = ⟨[("j", ⟨"queued", 0, none, none⟩)], .ok ("j", "queued")⟩) :=
  ⟨⟨by decide, (submission_validates_extension_only [] "notes.txt".toList [] "j").1 (by decide)⟩,
   ⟨by decide, (submission_validates_extension_only [] "AUDIO.WAV".toList [] "j").2 (by decide)⟩⟩

/-- C7: segments without a speaker label contribute nothing: running the
synthesizer on the input with all unlabeled segments removed produces
exactly the same result (same turns, same statistics, same transcript) for
every audio duration. -/
theorem unlabeled_segments_no_effect (segs : List Segment) (dur : ℚ) :
    format_diarization_output (segs.filter fun s => s.speaker.isSome) dur
      = format_diarization_output segs dur := by
  have h : scanSegments (segs.filter fun s => s.speaker.isSome)
      = scanSegments segs := by
    unfold scanSegments
    exact foldl_skip_unlabeled segs _
  unfold format_diarization_output
  rw [h]

/-- C9: every speaker key present after the scan owns at least one emitted
turn, so its `segment_count` is at least 1 and the
`total_duration / segment_count` average never divides by zero. -/
theorem speaker_segment_count_positive (segs : List Segment)
    (p : String × SpeakerData)
    (hp : p ∈ (finishScan (scanSegments segs)).speakers) :
    1 ≤ p.2.segment_count ∧ ¬(p.2.segment_count : ℚ) = 0 := by
  obtain ⟨-, hcnt, -, hne⟩ := finalAgg segs p hp
  have hpos : 1 ≤ p.2.segment_count := by
    rw [hcnt]
    exact List.length_pos.2 hne
  refine ⟨hpos, ?_⟩
  intro h0
  rw [Nat.cast_eq_zero] at h0
  rw [h0] at hpos
  exact absurd hpos (by norm_num)

/-- Witness for C9 at a concrete one-segment input. -/
theorem speaker_segment_count_positive_witness :
    ("A", (⟨1, 1, ["hi".toList]⟩ : SpeakerData))
        ∈ (finishScan (scanSegments [⟨some "A", "hi".toList, 0, 1⟩])).speakers
    ∧ 1 ≤ (⟨1, 1, ["hi".toList]⟩ : SpeakerData).segment_count
    ∧ ¬((⟨1, 1, ["hi".toList]⟩ : SpeakerData).segment_count : ℚ) = 0 :=
  ⟨by with_unfolding_all decide,
   speaker_segment_count_positive [⟨some "A", "hi".toList, 0, 1⟩]
     ("A", ⟨1, 1, ["hi".toList]⟩) (by with_unfolding_all decide)⟩

/-- C10: an input with no speaker-labeled segments (in particular the empty
input) synthesizes successfully for every audio duration, zero included:
empty transcript, empty speakers map, empty segments list,
`total_speakers = 0`, and no division is reached. -/
theorem no_labels_empty_output (segs : List Segment) (dur : ℚ)
    (h : ∀ s ∈ segs, s.speaker = none) :
    format_diarization_output segs dur
      = .ok ⟨[], [], [], dur, 0⟩ := by
  have hscan : scanSegments segs = ⟨[], [], none⟩ := by
    unfold scanSegments
    exact foldl_all_none segs _ h
  unfold format_diarization_output
  rw [hscan]
  rfl

/-- Witness for C10: one unlabeled segment, audio duration zero. -/
theorem no_labels_empty_output_witness :
    (∀ s ∈ [(⟨none, "noise".toList, 0, 1⟩ : Segment)], s.speaker = none)
    ∧ format_diarization_output [⟨none, "noise".toList, 0, 1⟩] 0
        = .ok ⟨[], [], [], 0, 0⟩ :=
  ⟨by decide, no_labels_empty_output [⟨none, "noise".toList, 0, 1⟩] 0 (by decide)⟩

/-- C8 counterexample: on the already-merged single-segment input with text
`" hi "` the emitted turn's text is the stripped `"hi"`, not the input text
— so merge is not the identity on texts as the claim states. -/
theorem merge_identity_text_counterexample :
    (finishScan (scanSegments [⟨some "A", " hi ".toList, 0, 1⟩])).segments
      = [⟨"A", "hi".toList, 0, 1, 1⟩]
    ∧ ¬("hi".toList = " hi ".toList) := by
  constructor
  · with_unfolding_all decide
  · decide

/-- C8 (amended): on a sequence of labeled segments in which no two
consecutive segments share a speaker, merging emits one turn per segment,
identical in count and in start/end boundaries, with text equal to the
input segment's text stripped of leading/trailing whitespace (identical
whenever the input texts carry no surrounding whitespace). -/
theorem merge_identity_on_alternating (ls : List LabeledSeg)
    (hch : List.Chain' (fun a b => ¬a.speaker = b.speaker) ls) :
    (finishScan (scanSegments (ls.map fun l =>
        ⟨some l.speaker, l.text, l.start, l.stop⟩))).segments
      = ls.map fun l =>
          ⟨l.speaker, pyStrip l.text, l.start, l.stop, l.stop - l.start⟩ := by
  rw [turns_eq_specTurns, labeledOf_map_toSegment]
  cases ls with
  | nil => rfl
  | cons l rest =>
    have hh : ∀ l0, rest.head? = some l0 →
        ¬l0.speaker = (⟨l.speaker, [l.text], l.start, l.stop⟩ : SpecRun).speaker := by
      intro l0 hl0
      cases rest with
      | nil => cases hl0
      | cons r0 rr =>
        injection hl0 with h1
        subst h1
        have h2 := List.chain'_cons.1 hch
        exact fun hx => h2.1 hx.symm
    rw [show specTurns (l :: rest)
          = specScan ⟨l.speaker, [l.text], l.start, l.stop⟩ rest from rfl]
    rw [specScan_pairwise_ne rest _ hh hch.tail, List.map_cons]
    congr 1
    · exact specClose_singleton l
    · apply List.map_congr_left
      intro x _
      exact specClose_singleton x

/-- Witness for C8 on a concrete two-speaker alternating input. -/
theorem merge_identity_on_alternating_witness :
    List.Chain' (fun a b : LabeledSeg => ¬a.speaker = b.speaker)
      [⟨"A", " hi ".toList, 0, 1⟩, ⟨"B", "yo".toList, 1, 2⟩]
    ∧ (finishScan (scanSegments (List.map
        (fun l : LabeledSeg => ⟨some l.speaker, l.text, l.start, l.stop⟩)
        [⟨"A", " hi ".toList, 0, 1⟩, ⟨"B", "yo".toList, 1, 2⟩]))).segments
      = List.map
          (fun l : LabeledSeg =>
            ⟨l.speaker, pyStrip l.text, l.start, l.stop, l.stop - l.start⟩)
          [⟨"A", " hi ".toList, 0, 1⟩, ⟨"B", "yo".toList, 1, 2⟩] :=
  ⟨by simp [List.chain'_cons],
   merge_identity_on_alternating
     [⟨"A", " hi ".toList, 0, 1⟩, ⟨"B", "yo".toList, 1, 2⟩]
     (by simp [List.chain'_cons])⟩

/-- C1 counterexample: the turn text is not the raw segment texts joined
with a single space — each text is stripped first. On
`[(A, "hi ", 0, 1), (A, "there", 1, 2)]` the code produces `"hi there"`,
while joining the raw texts with a single space gives `"hi  there"`. -/
theorem merge_text_not_raw_join_counterexample :
    ((finishScan (scanSegments [⟨some "A", "hi ".toList, 0, 1⟩,
        ⟨some "A", "there".toList, 1, 2⟩])).segments.map fun t => t.text)
      = ["hi there".toList]
    ∧ ¬("hi there".toList = joinSpace ["hi ".toList, "there".toList]) := by
  constructor
  · with_unfolding_all decide
  · decide

/-- C1 (amended): for every chronological input and nonzero audio duration
the synthesizer succeeds; its turns are exactly the maximal runs of
consecutive same-speaker labeled segments (`specTurns`), each turn's text
being the run's texts stripped and joined with single spaces (start = first
segment's start, end = last segment's end, trailing run emitted); and every
speaker's statistics aggregate exactly that speaker's turns, with
percentage = total_duration / audio_duration × 100, average turn duration
= total_duration / segment_count, and word_count = the number of
whitespace-delimited tokens across the speaker's turns. The claim's
concrete example holds verbatim. -/
theorem merge_emits_runs_with_stats :
    (∀ (segs : List Segment) (dur : ℚ), ¬dur = 0 →
      ∃ out, format_diarization_output segs dur = .ok out
        ∧ out.segments = specTurns (labeledOf segs)
        ∧ ∀ p ∈ out.speakers,
            p.2.total_duration
              = ((ownedTurns out.segments p.1).map Turn.duration).sum
            ∧ p.2.segment_count = (ownedTurns out.segments p.1).length
            ∧ p.2.percentage = p.2.total_duration / dur * 100
            ∧ p.2.average_segment_duration
              = p.2.total_duration / (p.2.segment_count : ℚ)
            ∧ p.2.word_count
              = ((ownedTurns out.segments p.1).map
                  fun t => (pySplit t.text).length).sum)
    ∧ (∃ out, format_diarization_output
          [⟨some "A", "hi".toList, 0, 1⟩, ⟨some "A", "there".toList, 1, 2⟩,
           ⟨some "B", "hey".toList, 2, 3⟩] 3 = .ok out
        ∧ out.segments = [⟨"A", "hi there".toList, 0, 2, 2⟩,
                          ⟨"B", "hey".toList, 2, 3, 1⟩]
        ∧ List.lookup "A" out.speakers
            = some ⟨2, 1, ["hi".toList, "there".toList], 200/3, 2, 2⟩) := by
  constructor
  · intro segs dur hdur
    have hcnt : ∀ p ∈ (finishScan (scanSegments segs)).speakers,
        p.2.segment_count ≠ 0 := by
      intro p hp
      obtain ⟨-, hc2, -, hne⟩ := finalAgg segs p hp
      rw [hc2]
      intro h0
      exact hne (List.length_eq_zero.1 h0)
    have hfin := finalizeStats_ok hdur _ hcnt
    refine ⟨⟨renderTranscript (finishScan (scanSegments segs)).segments,
             (finishScan (scanSegments segs)).speakers.map (fun p =>
               (p.1, ⟨p.2.total_duration, p.2.segment_count, p.2.words,
                      p.2.total_duration / dur * 100,
                      p.2.total_duration / (p.2.segment_count : ℚ),
                      p.2.words.length⟩)),
             (finishScan (scanSegments segs)).segments, dur,
             (finishScan (scanSegments segs)).speakers.length⟩, ?_, ?_, ?_⟩
    · unfold format_diarization_output
      dsimp only
      rw [hfin]
      rfl
    · dsimp only
      exact turns_eq_specTurns segs
    · dsimp only
      intro p hp
      obtain ⟨q, hq, rfl⟩ := List.mem_map.1 hp
      obtain ⟨hd, hc2, hw, -⟩ := finalAgg segs q hq
      dsimp only
      refine ⟨hd, hc2, rfl, rfl, ?_⟩
      rw [hw, List.length_flatten, List.map_map]
      rfl
  · refine ⟨⟨"A [0.00s - 2.00s]: hi there\n\nB [2.00s - 3.00s]: hey".toList,
             [("A", ⟨2, 1, ["hi".toList, "there".toList], 200/3, 2, 2⟩),
              ("B", ⟨1, 1, ["hey".toList], 100/3, 1, 1⟩)],
             [⟨"A", "hi there".toList, 0, 2, 2⟩, ⟨"B", "hey".toList, 2, 3, 1⟩],
             3, 2⟩, ?_, ?_, ?_⟩
    · with_unfolding_all decide
    · with_unfolding_all decide
    · with_unfolding_all decide

/-- Witness for C1, applying the universal part at a concrete input with
audio duration 10. -/
theorem merge_emits_runs_with_stats_witness :
    ¬(10:ℚ) = 0
    ∧ ∃ out, format_diarization_output [⟨some "A", "x".toList, 0, 1⟩] 10
          = .ok out
        ∧ out.segments = specTurns (labeledOf [⟨some "A", "x".toList, 0, 1⟩])
        ∧ ∀ p ∈ out.speakers,
            p.2.total_duration
              = ((ownedTurns out.segments p.1).map Turn.duration).sum
            ∧ p.2.segment_count = (ownedTurns out.segments p.1).length
            ∧ p.2.percentage = p.2.total_duration / 10 * 100
            ∧ p.2.average_segment_duration
              = p.2.total_duration / (p.2.segment_count : ℚ)
            ∧ p.2.word_count
              = ((ownedTurns out.segments p.1).map
                  fun t => (pySplit t.text).length).sum :=
  ⟨by norm_num,
   merge_emits_runs_with_stats.1 [⟨some "A", "x".toList, 0, 1⟩] 10 (by norm_num)⟩

/-- C5: over a job's lifetime (creation write `0.0` followed by the
driver's writes, for every combination of stage outcomes, filesystem
contents and paths) the progress sequence is non-decreasing, stays within
`[0, 1]`, and contains `1.0` exactly when the final status written is
`completed` — a failed run never reaches progress `1.0`. -/
theorem progress_monotone_completion_iff (env : PipelineEnv) (fs0 : List Str)
    (audioPath processedPath : Str) :
    List.Chain' (· ≤ ·) (lifetimeProgress env fs0 audioPath processedPath)
    ∧ (∀ q ∈ lifetimeProgress env fs0 audioPath processedPath,
        0 ≤ q ∧ q ≤ 1)
    ∧ ((1:ℚ) ∈ lifetimeProgress env fs0 audioPath processedPath
        ↔ lastStatus (process_diarization env fs0 audioPath processedPath).trace
            = some "completed") := by
  obtain ⟨c, l, t, al, d, segs, dur⟩ := env
  simp only [lifetimeProgress, process_diarization]
  cases c
  · norm_num [failExit, progressWrites, lastStatus, List.chain'_cons,
      List.mem_cons, List.filterMap] <;> decide
  · cases l
    · norm_num [failExit, progressWrites, lastStatus, List.chain'_cons,
        List.mem_cons, List.filterMap] <;> decide
    · cases t
      · norm_num [failExit, progressWrites, lastStatus, List.chain'_cons,
          List.mem_cons, List.filterMap] <;> decide
      · cases al
        · norm_num [failExit, progressWrites, lastStatus, List.chain'_cons,
            List.mem_cons, List.filterMap] <;> decide
        · cases d
          · norm_num [failExit, progressWrites, lastStatus, List.chain'_cons,
              List.mem_cons, List.filterMap] <;> decide
          · cases hfmt : format_diarization_output segs dur with
            | error e =>
              norm_num [hfmt, failExit, progressWrites, lastStatus,
                List.chain'_cons, List.mem_cons, List.filterMap] <;> decide
            | ok out =>
              have hfs1 : processedPath ∈
                  (if processedPath ∈ fs0 then fs0 else fs0 ++ [processedPath]) := by
                by_cases hm : processedPath ∈ fs0
                · rw [if_pos hm]; exact hm
                · rw [if_neg hm]; exact List.mem_append_right _ (by simp)
              have hunlink1 : pyUnlink
                  (if processedPath ∈ fs0 then fs0 else fs0 ++ [processedPath])
                  processedPath
                  = .ok ((if processedPath ∈ fs0 then fs0
                          else fs0 ++ [processedPath]).erase processedPath) := by
                unfold pyUnlink
                rw [if_pos hfs1]
              by_cases hpa : processedPath ≠ audioPath
              · cases hunlink2 : pyUnlink
                    ((if processedPath ∈ fs0 then fs0
                      else fs0 ++ [processedPath]).erase processedPath)
                    audioPath with
                | error e2 =>
                  norm_num [hfmt, hunlink1, hunlink2, hpa, failExit,
                    progressWrites, lastStatus, List.chain'_cons,
                    List.mem_cons, List.filterMap] <;> decide
                | ok fs3 =>
                  norm_num [hfmt, hunlink1, hunlink2, hpa, failExit,
                    progressWrites, lastStatus, List.chain'_cons,
                    List.mem_cons, List.filterMap]
              · norm_num [hfmt, hunlink1, hpa, failExit, progressWrites,
                  lastStatus, List.chain'_cons, List.mem_cons, List.filterMap]

end Diarize
